import Mathlib

/-!
# Income Tax Calculator — verification development

Shallow embedding of the tax-calculation core of `script.js`
(class `TaxCalculator`): the 2024 bracket tables, the federal tax
engine `calculateFederalTax`, the state tax estimator
`calculateStateTax`, the marginal-rate lookup `getMarginalRate`, the
deduction resolution and orchestration in `calculateTax`, and the
bounded history store `saveToHistory` together with the startup load
from the key-value store.

Amounts and rates are modelled as exact rationals (the source uses JS
numbers; floating-point representation is out of scope per the spec's
non-goals). JS `Math.round(x)` is `⌊x + 1/2⌋`, which is Mathlib's
`round`. The `Infinity` sentinel used for the top bracket's `max` is
modelled as `Option ℚ` with `none` standing for `Infinity`.
-/

namespace TaxCalc

/-- A tax bracket `{min, max, rate}`. `max = none` models the JS
`Infinity` sentinel of the unbounded top bracket. -/
structure TaxBracket where
  min : ℚ
  max : Option ℚ
  rate : ℚ
  deriving DecidableEq, Repr

/-- JS `Math.min(x, m)` where `m` may be `Infinity` (`none`):
`Math.min(x, Infinity) = x`. -/
def minWithMax (x : ℚ) : Option ℚ → ℚ
  | Option.none => x
  | some m => min x m

/-- JS `x < m` where `m` may be `Infinity` (`none`): `x < Infinity` is true. -/
def ltMax (x : ℚ) : Option ℚ → Bool
  | Option.none => true
  | some m => decide (x < m)

/-- Filing status as read from the form's select value. `other` covers
any unrecognized non-empty string; the empty (absent) value is
represented as `Option.none` at the input boundary. -/
inductive FilingStatus where
  | single
  | marriedJointly
  | marriedSeparately
  | headOfHousehold
  | other (s : String)
  deriving DecidableEq, Repr

/-- State tax category from the form's select value; `other` covers
unrecognized values. -/
inductive StateCat where
  | catNone
  | low
  | medium
  | high
  | other (s : String)
  deriving DecidableEq, Repr

/-- `this.taxBrackets2024.single` from the source. -/
def singleBrackets : List TaxBracket :=
  [ { min := 0, max := some 11000, rate := 10/100 },
    { min := 11000, max := some 44725, rate := 12/100 },
    { min := 44725, max := some 95375, rate := 22/100 },
    { min := 95375, max := some 182050, rate := 24/100 },
    { min := 182050, max := some 231250, rate := 32/100 },
    { min := 231250, max := some 578125, rate := 35/100 },
    { min := 578125, max := Option.none, rate := 37/100 } ]

/-- `this.taxBrackets2024.marriedJointly` from the source. -/
def marriedJointlyBrackets : List TaxBracket :=
  [ { min := 0, max := some 22000, rate := 10/100 },
    { min := 22000, max := some 89450, rate := 12/100 },
    { min := 89450, max := some 190750, rate := 22/100 },
    { min := 190750, max := some 364200, rate := 24/100 },
    { min := 364200, max := some 462500, rate := 32/100 },
    { min := 462500, max := some 693750, rate := 35/100 },
    { min := 693750, max := Option.none, rate := 37/100 } ]

/-- `this.taxBrackets2024[filingStatus]`: only `single` and
`marriedJointly` have dedicated tables; any other key is `undefined`. -/
def taxBrackets2024 : FilingStatus → Option (List TaxBracket)
  | .single => some singleBrackets
  | .marriedJointly => some marriedJointlyBrackets
  | _ => Option.none

/-- `this.standardDeductions2024[filingStatus]`: the four known statuses
have entries; any other key is `undefined`. -/
def standardDeductions2024 : FilingStatus → Option ℚ
  | .single => some 13850
  | .marriedJointly => some 27700
  | .marriedSeparately => some 13850
  | .headOfHousehold => some 20800
  | .other _ => Option.none

/-- `stateRates[state]` from `calculateStateTax`; unrecognized keys are
`undefined`. -/
def stateRates : StateCat → Option ℚ
  | .catNone => some 0
  | .low => some (3/100)
  | .medium => some (6/100)
  | .high => some (1/10)
  | .other _ => Option.none

/-- `Math.round(x * 100) / 100`, the two-decimal rounding used by both
tax functions. JS `Math.round` rounds half toward `+∞`, i.e. `⌊x+1/2⌋`,
which is Mathlib's `round` on `ℚ`. -/
def round2 (x : ℚ) : ℚ := (round (x * 100) : ℤ) / 100

/-- `calculateFederalTax(taxableIncome, brackets)`: the loop
`for (const bracket of brackets) if (taxableIncome > bracket.min)
tax += (Math.min(taxableIncome, bracket.max) - bracket.min) * bracket.rate`
followed by `Math.round(tax * 100) / 100`. -/
def calculateFederalTax (taxableIncome : ℚ) (brackets : List TaxBracket) : ℚ :=
  round2 (brackets.foldl
    (fun tax bracket =>
      if bracket.min < taxableIncome then
        tax + (minWithMax taxableIncome bracket.max - bracket.min) * bracket.rate
      else tax)
    0)

/-- `calculateStateTax(income, state)`:
`Math.round(income * (stateRates[state] || 0) * 100) / 100`. All present
table rates that are falsy (`0`) coincide with the `|| 0` default, so
`getD 0` is exact. -/
def calculateStateTax (income : ℚ) (state : StateCat) : ℚ :=
  round2 (income * ((stateRates state).getD 0))

/-- The loop test `taxableIncome >= bracket.min && taxableIncome < bracket.max`
of `getMarginalRate`. -/
def inBracket (taxableIncome : ℚ) (b : TaxBracket) : Bool :=
  decide (b.min ≤ taxableIncome) && ltMax taxableIncome b.max

/-- `getMarginalRate(taxableIncome, brackets)`: return the rate of the
first bracket whose `[min, max)` range holds `taxableIncome`, else fall
back to `brackets[brackets.length - 1].rate`. On an empty list the
source would throw a `TypeError`; this model returns `0` there, a case
no claim reaches (well-formed tables are non-empty). -/
def getMarginalRate (taxableIncome : ℚ) (brackets : List TaxBracket) : ℚ :=
  match brackets.find? (inBracket taxableIncome) with
  | some b => b.rate
  | Option.none => (brackets.getLast?.elim 0 TaxBracket.rate)

/-- One history entry, as built in `calculateTax` and stored by
`saveToHistory`. -/
structure HistoryEntry where
  date : String
  income : ℚ
  filingStatus : FilingStatus
  federalTax : ℚ
  stateTax : ℚ
  totalTax : ℚ
  afterTaxIncome : ℚ
  deriving DecidableEq, Repr

/-- The content of the key-value store under the key `taxHistory`, as
seen by `JSON.parse(localStorage.getItem('taxHistory'))`:
* `absent` — no entry; `getItem` yields `null` and `JSON.parse(null)`
  parses the string `"null"` to the falsy value `null`;
* `malformed s` — an entry holding a string `s` that is not valid JSON,
  on which `JSON.parse` throws a `SyntaxError`;
* `jsonFalsy` — valid JSON whose parsed value is falsy (`null`, `false`,
  `0`, `""`);
* `jsonArray es` — valid JSON deserializing to an array of history
  entries (the shape `saveToHistory` writes). -/
inductive StoreContent where
  | absent
  | malformed (s : String)
  | jsonFalsy
  | jsonArray (entries : List HistoryEntry)
  deriving DecidableEq, Repr

/-- The JS exception class thrown by `JSON.parse` on malformed input. -/
inductive JsError where
  | syntaxError
  deriving DecidableEq, Repr

/-- `this.history = JSON.parse(localStorage.getItem('taxHistory')) || []`
in the constructor. Absent content and falsy parse results fall through
`|| []` to the empty list; malformed content makes `JSON.parse` throw,
and no handler catches it. -/
def loadHistory : StoreContent → Except JsError (List HistoryEntry)
  | .absent => .ok []
  | .malformed _ => .error .syntaxError
  | .jsonFalsy => .ok []
  | .jsonArray es => .ok es

/-- `saveToHistory(calculation)`: `unshift`, drop the last element when
the length exceeds 10 (`pop`), then persist the whole list with
`localStorage.setItem('taxHistory', JSON.stringify(this.history))`.
Returns the new in-memory list and the new store content. -/
def saveToHistory (history : List HistoryEntry) (calculation : HistoryEntry) :
    List HistoryEntry × StoreContent :=
  let h := calculation :: history
  let h := if h.length > 10 then h.dropLast else h
  (h, StoreContent.jsonArray h)

/-- `clearHistory()`: empty the list and `removeItem` the stored key. -/
def clearHistory : List HistoryEntry × StoreContent :=
  ([], StoreContent.absent)

/-- `CalculationInput`: the form values after the source's
`parseFloat(...) || 0` coercions. `income` and `customDeductions` are
numbers (absent or non-numeric fields became `0`); `filingStatus` is
`Option.none` when the select value is the empty string. -/
structure CalculationInput where
  income : ℚ
  filingStatus : Option FilingStatus
  customDeductions : ℚ
  state : StateCat
  deriving DecidableEq, Repr

/-- The results record built in `calculateTax` and handed to
`displayResults`. -/
structure CalculationResult where
  income : ℚ
  filingStatus : FilingStatus
  deductions : ℚ
  taxableIncome : ℚ
  federalTax : ℚ
  stateTax : ℚ
  totalTax : ℚ
  afterTaxIncome : ℚ
  brackets : List TaxBracket
  deriving DecidableEq, Repr

/-- The mutable state touched by `calculateTax`: the in-memory history
list and the persisted store content. -/
structure CalcState where
  history : List HistoryEntry
  stored : StoreContent
  deriving DecidableEq, Repr

/-- The user-facing validation failure (`alert(...)` + early return). -/
inductive CalcError where
  | invalidInput
  deriving DecidableEq, Repr

/-- Deduction resolution inside `calculateTax`:
`const standardDeduction = this.standardDeductions2024[filingStatus] || 13850;
const deductions = customDeductions || standardDeduction;`
(`customDeductions` is falsy exactly when it is `0`, `parseFloat`
having already turned `NaN` into `0`). -/
def resolveDeductions (filingStatus : FilingStatus) (customDeductions : ℚ) : ℚ :=
  let standardDeduction := (standardDeductions2024 filingStatus).getD 13850
  if customDeductions = 0 then standardDeduction else customDeductions

/-- Bracket resolution inside `calculateTax`:
`const brackets = this.taxBrackets2024[filingStatus] || this.taxBrackets2024.single;`. -/
def resolveBrackets (filingStatus : FilingStatus) : List TaxBracket :=
  (taxBrackets2024 filingStatus).getD singleBrackets

/-- `calculateTax()`, the orchestrator: validate
(`if (!income || !filingStatus) { alert(...); return; }` — a JS number
is falsy exactly when it is `0`, the select string exactly when empty),
resolve deductions and brackets, compute the taxes, build the results
record, and append a history entry. `date` stands for
`new Date().toLocaleDateString()` captured at calculation time. On the
validation failure the state is returned untouched. -/
def calculateTax (input : CalculationInput) (date : String) (st : CalcState) :
    CalcState × Except CalcError CalculationResult :=
  match input.filingStatus with
  | Option.none => (st, .error .invalidInput)
  | some filingStatus =>
    if input.income = 0 then (st, .error .invalidInput)
    else
      let deductions := resolveDeductions filingStatus input.customDeductions
      let taxableIncome := max 0 (input.income - deductions)
      let brackets := resolveBrackets filingStatus
      let federalTax := calculateFederalTax taxableIncome brackets
      let stateTax := calculateStateTax input.income input.state
      let totalTax := federalTax + stateTax
      let afterTaxIncome := input.income - totalTax
      let entry : HistoryEntry :=
        { date := date, income := input.income, filingStatus := filingStatus,
          federalTax := federalTax, stateTax := stateTax, totalTax := totalTax,
          afterTaxIncome := afterTaxIncome }
      let saved := saveToHistory st.history entry
      ({ history := saved.1, stored := saved.2 },
       .ok { income := input.income, filingStatus := filingStatus,
             deductions := deductions, taxableIncome := taxableIncome,
             federalTax := federalTax, stateTax := stateTax,
             totalTax := totalTax, afterTaxIncome := afterTaxIncome,
             brackets := brackets })

/-- Per-bracket condition of the data-model invariant: rate a fraction
in `[0, 1)`, `min` below `max` when `max` is finite, `min` non-negative. -/
def bracketOk (b : TaxBracket) : Bool :=
  decide (0 ≤ b.min) && decide (0 ≤ b.rate) && decide (b.rate < 1) &&
    (match b.max with
     | Option.none => true
     | some m => decide (b.min < m))

/-- Contiguity: each bracket's `max` equals the next bracket's `min`. -/
def contiguous : List TaxBracket → Bool
  | a :: b :: rest => decide (a.max = some b.min) && contiguous (b :: rest)
  | _ => true

/-- Well-formed bracket sequence per the spec's data-model invariant:
non-empty, first `min` is `0`, contiguous, each bracket satisfies
`bracketOk`, and the last bracket's `max` is unbounded. Contiguity with
`min < max` yields the ascending-by-`min` sorting. -/
def wellFormed (brackets : List TaxBracket) : Bool :=
  (match brackets.head? with
   | some b => decide (b.min = 0)
   | Option.none => false) &&
  contiguous brackets &&
  brackets.all bracketOk &&
  (match brackets.getLast? with
   | some b => b.max.isNone
   | Option.none => false)

/-- Spec-side restatement of the federal tax engine's output (claim C1):
the sum, over each bracket whose `min` is exceeded by `taxableIncome`,
of `(min(taxableIncome, bracket.max) - bracket.min) * bracket.rate`. -/
def specFederalSum (taxableIncome : ℚ) (brackets : List TaxBracket) : ℚ :=
  ((brackets.filter (fun b => decide (b.min < taxableIncome))).map
    (fun b => (minWithMax taxableIncome b.max - b.min) * b.rate)).sum

/-- The contribution of a single bracket to the pre-rounding federal tax. -/
def federalTerm (taxableIncome : ℚ) (b : TaxBracket) : ℚ :=
  if b.min < taxableIncome then
    (minWithMax taxableIncome b.max - b.min) * b.rate
  else 0

end TaxCalc

namespace TaxCalc

/-- C2: for income 50000, filing status single, custom deductions 0,
state category low, the orchestrator succeeds with deductions 13850,
taxable income 36150, federal tax 4118, state tax 1500, total tax 5618,
after-tax income 44382, appends the matching history entry, and the
marginal rate on the result is 0.12. -/
theorem C2_single_50000_scenario :
    calculateTax ⟨50000, some .single, 0, .low⟩ "1/1/2024" ⟨[], .absent⟩ =
      ({ history := [⟨"1/1/2024", 50000, .single, 4118, 1500, 5618, 44382⟩],
         stored := .jsonArray [⟨"1/1/2024", 50000, .single, 4118, 1500, 5618, 44382⟩] },
       .ok { income := 50000, filingStatus := .single, deductions := 13850,
             taxableIncome := 36150, federalTax := 4118, stateTax := 1500,
             totalTax := 5618, afterTaxIncome := 44382, brackets := singleBrackets }) ∧
    getMarginalRate 36150 singleBrackets = 12/100 := by
  constructor
  · norm_num [calculateTax, resolveDeductions, standardDeductions2024, resolveBrackets,
      taxBrackets2024, calculateFederalTax, singleBrackets, minWithMax, round2, round_eq,
      calculateStateTax, stateRates, saveToHistory]
  · norm_num [getMarginalRate, singleBrackets, inBracket, ltMax, List.find?]

/-- C5: when income is zero (the JS-falsy coercion of zero or absent
input) or the filing status is absent, `calculateTax` signals the
invalid-input condition, produces no result, and leaves both the
in-memory history and the persisted store untouched. -/
theorem C5_invalid_input_rejected (input : CalculationInput) (date : String)
    (st : CalcState) (h : input.income = 0 ∨ input.filingStatus = Option.none) :
    calculateTax input date st = (st, .error .invalidInput) := by
  obtain ⟨i, fs, cd, s⟩ := input
  cases fs with
  | none => rfl
  | some f =>
    rcases h with h0 | hn
    · simp only at h0
      simp [calculateTax, h0]
    · simp at hn

/-- Witness for C5 at the concrete scenario income = 0, status single. -/
theorem C5_invalid_input_rejected_witness :
    calculateTax ⟨0, some .single, 0, .low⟩ "1/1/2024" ⟨[], .absent⟩ =
      (⟨[], .absent⟩, .error .invalidInput) :=
  C5_invalid_input_rejected ⟨0, some .single, 0, .low⟩ "1/1/2024" ⟨[], .absent⟩
    (Or.inl rfl)

/-- C6: the deduction resolution returns a non-zero `customDeductions`
as-is; with `customDeductions = 0` (absent or zero input) it returns the
filing status's standard deduction from the table; and when the status
has no table entry it returns 13850, raising no error. -/
theorem C6_deduction_resolution (fs : FilingStatus) (cd : ℚ) :
    (cd ≠ 0 → resolveDeductions fs cd = cd) ∧
    (∀ d, standardDeductions2024 fs = some d → resolveDeductions fs 0 = d) ∧
    (standardDeductions2024 fs = Option.none → resolveDeductions fs 0 = 13850) := by
  refine ⟨fun h => by simp [resolveDeductions, h], fun d hd => ?_, fun hn => ?_⟩
  · simp [resolveDeductions, hd]
  · simp [resolveDeductions, hn]

/-- Witness for C6: an unrecognized status with zero custom deductions
falls back to 13850, and a non-zero custom deduction is returned as-is. -/
theorem C6_deduction_resolution_witness :
    resolveDeductions (.other "unknown") 0 = 13850 ∧
    resolveDeductions .single 500 = 500 :=
  ⟨(C6_deduction_resolution (.other "unknown") 0).2.2 rfl,
   (C6_deduction_resolution .single 500).1 (by norm_num)⟩

/-- C9: `marriedSeparately` has no dedicated bracket table, so bracket
resolution falls back to `single`'s brackets, while the deduction table
does have its own entry (13850) and the deduction resolution uses it;
the two lookups fall back independently. -/
theorem C9_marriedSeparately_fallbacks :
    taxBrackets2024 .marriedSeparately = Option.none ∧
    resolveBrackets .marriedSeparately = singleBrackets ∧
    standardDeductions2024 .marriedSeparately = some 13850 ∧
    resolveDeductions .marriedSeparately 0 = 13850 :=
  ⟨rfl, rfl, rfl, rfl⟩

/-- C10: a negative income with a present filing status passes the
`!income` validation (a negative JS number is truthy): the calculation
proceeds, a result is produced, and a history entry is appended. -/
theorem C10_negative_income_passes (input : CalculationInput) (fs : FilingStatus)
    (date : String) (st : CalcState) (hneg : input.income < 0)
    (hfs : input.filingStatus = some fs) :
    ∃ r e, calculateTax input date st =
      ({ history := (saveToHistory st.history e).1,
         stored := (saveToHistory st.history e).2 }, .ok r) := by
  obtain ⟨i, f, cd, s⟩ := input
  simp only at hfs hneg
  subst hfs
  have h0 : ¬ i = 0 := ne_of_lt hneg
  simp only [calculateTax]
  rw [if_neg h0]
  exact ⟨_, _, rfl⟩

/-- Witness for C10 at income = -5, status single. -/
theorem C10_negative_income_passes_witness :
    ∃ r e, calculateTax ⟨-5, some .single, 0, .low⟩ "1/1/2024" ⟨[], .absent⟩ =
      ({ history := (saveToHistory [] e).1,
         stored := (saveToHistory [] e).2 }, .ok r) :=
  C10_negative_income_passes ⟨-5, some .single, 0, .low⟩ .single "1/1/2024"
    ⟨[], .absent⟩ (by norm_num) rfl

/-- C4 counterexample: at the concrete store content `"not json"`,
which is not valid JSON, the startup load surfaces a `SyntaxError` instead of
yielding an empty history — `JSON.parse` throws and nothing catches it. -/
theorem C4_malformed_store_crashes :
    loadHistory (StoreContent.malformed "not json") = Except.error JsError.syntaxError ∧
    loadHistory (StoreContent.malformed "not json") ≠ Except.ok [] :=
  ⟨rfl, by simp [loadHistory]⟩

/-- C4 amended: absent content and content deserializing to a falsy
value yield an empty history list; content that fails to deserialize
raises an uncaught deserialization error (the load is not protected by
any handler); a stored entry array is loaded as-is. -/
theorem C4_load_behaviour :
    loadHistory .absent = .ok [] ∧
    loadHistory .jsonFalsy = .ok [] ∧
    (∀ s, loadHistory (.malformed s) = .error .syntaxError) ∧
    (∀ es, loadHistory (.jsonArray es) = .ok es) :=
  ⟨rfl, rfl, fun _ => rfl, fun _ => rfl⟩

end TaxCalc

namespace TaxCalc

lemma bracketOk_parts {b : TaxBracket} (h : bracketOk b = true) :
    0 ≤ b.min ∧ 0 ≤ b.rate ∧ b.rate < 1 ∧ ∀ m, b.max = some m → b.min < m := by
  unfold bracketOk at h
  simp only [Bool.and_eq_true, decide_eq_true_eq] at h
  obtain ⟨⟨⟨h1, h2⟩, h3⟩, h4⟩ := h
  refine ⟨h1, h2, h3, fun m hm => ?_⟩
  rw [hm] at h4
  simpa using h4

lemma wellFormed_parts {bs : List TaxBracket} (h : wellFormed bs = true) :
    (∀ b ∈ bs, bracketOk b = true) ∧ contiguous bs = true ∧
    (∃ b0 rest, bs = b0 :: rest ∧ b0.min = 0) ∧
    (∀ b, bs.getLast? = some b → b.max = Option.none) := by
  unfold wellFormed at h
  simp only [Bool.and_eq_true, List.all_eq_true] at h
  obtain ⟨⟨⟨hh, hc⟩, ha⟩, hl⟩ := h
  refine ⟨ha, hc, ?_, fun b hb => ?_⟩
  · cases bs with
    | nil => simp at hh
    | cons b0 rest =>
      refine ⟨b0, rest, rfl, ?_⟩
      simpa using hh
  · rw [hb] at hl
    simpa using hl

lemma contiguous_cons_parts {b0 b1 : TaxBracket} {rest : List TaxBracket}
    (h : contiguous (b0 :: b1 :: rest) = true) :
    b0.max = some b1.min ∧ contiguous (b1 :: rest) = true := by
  simp only [contiguous, Bool.and_eq_true, decide_eq_true_eq] at h
  exact h

lemma foldl_federal (ti : ℚ) (bs : List TaxBracket) : ∀ init : ℚ,
    bs.foldl (fun tax bracket =>
      if bracket.min < ti then
        tax + (minWithMax ti bracket.max - bracket.min) * bracket.rate
      else tax) init
      = init + ((bs.map (federalTerm ti)).sum) := by
  induction bs with
  | nil => intro init; simp
  | cons b rest ih =>
    intro init
    simp only [List.foldl_cons, List.map_cons, List.sum_cons]
    rw [ih]
    unfold federalTerm
    by_cases hlt : b.min < ti
    · rw [if_pos hlt, if_pos hlt]; ring
    · rw [if_neg hlt, if_neg hlt]; ring

lemma sum_federalTerm (ti : ℚ) (bs : List TaxBracket) :
    (bs.map (federalTerm ti)).sum = specFederalSum ti bs := by
  induction bs with
  | nil => simp [specFederalSum]
  | cons b rest ih =>
    simp only [List.map_cons, List.sum_cons, specFederalSum, List.filter_cons]
    by_cases hlt : b.min < ti
    · simp only [hlt, decide_True, if_true, List.map_cons, List.sum_cons, federalTerm, if_pos hlt]
      rw [ih]
      rfl
    · simp only [hlt, decide_False, if_false, federalTerm, if_neg hlt, zero_add]
      rw [ih]
      rfl

lemma calculateFederalTax_eq_spec (ti : ℚ) (bs : List TaxBracket) :
    calculateFederalTax ti bs = round2 (specFederalSum ti bs) := by
  unfold calculateFederalTax
  rw [foldl_federal, zero_add, sum_federalTerm]

/-- C1: for non-negative taxable income and a well-formed bracket table,
the federal tax engine returns the sum, over each bracket whose `min`
the income exceeds, of `(min(taxableIncome, max) - min) * rate`,
rounded to two decimals by multiplying by 100, rounding to the nearest
integer and dividing by 100; in particular zero taxable income yields
zero tax. -/
theorem C1_federal_engine (ti : ℚ) (bs : List TaxBracket) (hti : 0 ≤ ti)
    (hwf : wellFormed bs = true) :
    calculateFederalTax ti bs = round2 (specFederalSum ti bs) ∧
    (ti = 0 → calculateFederalTax ti bs = 0) := by
  refine ⟨calculateFederalTax_eq_spec ti bs, fun h0 => ?_⟩
  subst h0
  rw [calculateFederalTax_eq_spec]
  have hfil : bs.filter (fun b => decide (b.min < 0)) = [] := by
    rw [List.filter_eq_nil_iff]
    intro b hb
    have hmin := (bracketOk_parts ((wellFormed_parts hwf).1 b hb)).1
    simp only [decide_eq_true_eq]
    linarith
  simp [specFederalSum, hfil, round2]

/-- Witness for C1 at taxable income 0 over the single-filer table. -/
theorem C1_federal_engine_witness :
    calculateFederalTax 0 singleBrackets = round2 (specFederalSum 0 singleBrackets) ∧
    ((0 : ℚ) = 0 → calculateFederalTax 0 singleBrackets = 0) :=
  C1_federal_engine 0 singleBrackets le_rfl
    (by norm_num [wellFormed, singleBrackets, contiguous, bracketOk])

lemma round2_mono {x y : ℚ} (h : x ≤ y) : round2 x ≤ round2 y := by
  unfold round2
  have hr : round (x * 100) ≤ round (y * 100) := by
    rw [round_eq, round_eq]
    exact Int.floor_le_floor (by linarith)
  have hc : ((round (x * 100) : ℤ) : ℚ) ≤ ((round (y * 100) : ℤ) : ℚ) := by
    exact_mod_cast hr
  linarith

lemma federalTerm_mono {a b : ℚ} (hab : a ≤ b) {br : TaxBracket}
    (hok : bracketOk br = true) : federalTerm a br ≤ federalTerm b br := by
  obtain ⟨hmin, hrate, _, hlt⟩ := bracketOk_parts hok
  unfold federalTerm
  by_cases h1 : br.min < a
  · rw [if_pos h1, if_pos (lt_of_lt_of_le h1 hab)]
    apply mul_le_mul_of_nonneg_right _ hrate
    cases hm : br.max with
    | none => simp only [minWithMax]; linarith
    | some m =>
      simp only [minWithMax]
      have hminle : min a m ≤ min b m := min_le_min hab le_rfl
      linarith
  · rw [if_neg h1]
    by_cases h2 : br.min < b
    · rw [if_pos h2]
      apply mul_nonneg _ hrate
      cases hm : br.max with
      | none => simp only [minWithMax]; linarith
      | some m =>
        have hm2 := hlt m hm
        simp only [minWithMax]
        have hble : br.min ≤ min b m := le_min h2.le hm2.le
        linarith
    · rw [if_neg h2]

/-- C8: over a well-formed bracket table, the federal tax engine is
monotonically non-decreasing in taxable income. -/
theorem C8_federal_monotone (bs : List TaxBracket) (a b : ℚ)
    (hwf : wellFormed bs = true) (ha : 0 ≤ a) (hab : a ≤ b) :
    calculateFederalTax a bs ≤ calculateFederalTax b bs := by
  have hterma : calculateFederalTax a bs = round2 ((bs.map (federalTerm a)).sum) := by
    unfold calculateFederalTax; rw [foldl_federal, zero_add]
  have htermb : calculateFederalTax b bs = round2 ((bs.map (federalTerm b)).sum) := by
    unfold calculateFederalTax; rw [foldl_federal, zero_add]
  rw [hterma, htermb]
  apply round2_mono
  apply List.sum_le_sum
  intro br hbr
  exact federalTerm_mono hab ((wellFormed_parts hwf).1 br hbr)

/-- Witness for C8 on the single-filer table at incomes 0 and 1. -/
theorem C8_federal_monotone_witness :
    calculateFederalTax 0 singleBrackets ≤ calculateFederalTax 1 singleBrackets :=
  C8_federal_monotone singleBrackets 0 1
    (by norm_num [wellFormed, singleBrackets, contiguous, bracketOk])
    le_rfl (by norm_num)

end TaxCalc

namespace TaxCalc

lemma min_lb : ∀ (bs : List TaxBracket) (b0 : TaxBracket),
    contiguous (b0 :: bs) = true → (∀ b ∈ bs, bracketOk b = true) →
    ∀ m, b0.max = some m → ∀ b ∈ bs, m ≤ b.min := by
  intro bs
  induction bs with
  | nil =>
    intro b0 _ _ m _ b hb
    simp at hb
  | cons b1 rest ih =>
    intro b0 hc hok m hm b hb
    obtain ⟨h01, hc1⟩ := contiguous_cons_parts hc
    rw [hm] at h01
    have hm1 : m = b1.min := Option.some.inj h01
    rcases List.mem_cons.mp hb with rfl | hb2
    · exact hm1.le
    · cases rest with
      | nil => simp at hb2
      | cons b2 rest2 =>
        obtain ⟨h12, _⟩ := contiguous_cons_parts hc1
        have hok1 : bracketOk b1 = true := hok b1 (List.mem_cons_self b1 _)
        have hlt12 : b1.min < b2.min := (bracketOk_parts hok1).2.2.2 b2.min h12
        have hge := ih b1 hc1 (fun x hx => hok x (List.mem_cons_of_mem _ hx))
          b2.min h12 b hb2
        linarith [hm1.le]

lemma findInBracket_eq (ti : ℚ) : ∀ (bs : List TaxBracket),
    contiguous bs = true → (∀ b ∈ bs, bracketOk b = true) →
    ∀ b ∈ bs, inBracket ti b = true → bs.find? (inBracket ti) = some b := by
  intro bs
  induction bs with
  | nil =>
    intro _ _ b hb
    simp at hb
  | cons b0 rest ih =>
    intro hc hok b hb hbIn
    rcases List.mem_cons.mp hb with rfl | hb2
    · exact List.find?_cons_of_pos _ hbIn
    · cases rest with
      | nil => simp at hb2
      | cons b1 rest2 =>
        obtain ⟨h01, hc1⟩ := contiguous_cons_parts hc
        have hok' : ∀ x ∈ b1 :: rest2, bracketOk x = true :=
          fun x hx => hok x (List.mem_cons_of_mem _ hx)
        have hmb : b1.min ≤ b.min := min_lb (b1 :: rest2) b0 hc hok' b1.min h01 b hb2
        have hbmin : b.min ≤ ti := by
          simp only [inBracket, Bool.and_eq_true, decide_eq_true_eq] at hbIn
          exact hbIn.1
        have hfalse : ¬ inBracket ti b0 = true := by
          simp only [inBracket, Bool.and_eq_true, decide_eq_true_eq, h01, ltMax,
            decide_eq_true_eq, not_and]
          intro _
          linarith
        rw [List.find?_cons_of_neg _ hfalse]
        exact ih hc1 hok' b hb2 hbIn

lemma findInBracket_isSome (ti : ℚ) : ∀ (rest : List TaxBracket) (b0 : TaxBracket),
    contiguous (b0 :: rest) = true →
    (∀ b, (b0 :: rest).getLast? = some b → b.max = Option.none) →
    b0.min ≤ ti →
    ((b0 :: rest).find? (inBracket ti)).isSome = true := by
  intro rest
  induction rest with
  | nil =>
    intro b0 _ hl hm
    have hmax : b0.max = Option.none := hl b0 (by simp)
    have hin : inBracket ti b0 = true := by
      simp [inBracket, hm, ltMax, hmax]
    simp [List.find?_cons_of_pos _ hin]
  | cons b1 rest2 ih =>
    intro b0 hc hl hm
    obtain ⟨h01, hc1⟩ := contiguous_cons_parts hc
    by_cases hb : inBracket ti b0 = true
    · simp [List.find?_cons_of_pos _ hb]
    · have hm1 : b1.min ≤ ti := by
        simp only [inBracket, Bool.and_eq_true, decide_eq_true_eq, not_and, h01,
          ltMax] at hb
        have := hb hm
        simpa using this
      have hl1 : ∀ b, (b1 :: rest2).getLast? = some b → b.max = Option.none := by
        intro b hb2
        exact hl b (by rw [List.getLast?_cons_cons]; exact hb2)
      have hrec := ih b1 hc1 hl1 hm1
      rw [List.find?_cons_of_neg _ hb]
      exact hrec

/-- C7: for non-negative taxable income over a well-formed table, the
marginal-rate lookup finds a bracket (the defensive fallback to the last
bracket's rate is unreachable) and returns the rate of the bracket whose
`[min, max)` range holds the income: for each bracket containing the
income, the result is exactly that bracket's rate. -/
theorem C7_marginal_rate_lookup (ti : ℚ) (bs : List TaxBracket)
    (hti : 0 ≤ ti) (hwf : wellFormed bs = true) :
    (∃ b, bs.find? (inBracket ti) = some b ∧ getMarginalRate ti bs = b.rate) ∧
    (∀ b ∈ bs, inBracket ti b = true → getMarginalRate ti bs = b.rate) := by
  obtain ⟨hok, hc, ⟨b0, rest, rfl, hmin0⟩, hl⟩ := wellFormed_parts hwf
  constructor
  · have hsome := findInBracket_isSome ti rest b0 hc hl (by rw [hmin0]; exact hti)
    obtain ⟨b, hbfind⟩ := Option.isSome_iff_exists.mp hsome
    exact ⟨b, hbfind, by simp [getMarginalRate, hbfind]⟩
  · intro b hb hbIn
    have hfind := findInBracket_eq ti (b0 :: rest) hc hok b hb hbIn
    simp [getMarginalRate, hfind]

/-- Witness for C7 at taxable income 36150 over the single-filer table. -/
theorem C7_marginal_rate_lookup_witness :
    (∃ b, singleBrackets.find? (inBracket 36150) = some b ∧
      getMarginalRate 36150 singleBrackets = b.rate) ∧
    (∀ b ∈ singleBrackets, inBracket 36150 b = true →
      getMarginalRate 36150 singleBrackets = b.rate) :=
  C7_marginal_rate_lookup 36150 singleBrackets (by norm_num)
    (by norm_num [wellFormed, singleBrackets, contiguous, bracketOk])

end TaxCalc

namespace TaxCalc

lemma saveToHistory_fst (h : List HistoryEntry) (e : HistoryEntry)
    (hle : h.length ≤ 10) : (saveToHistory h e).1 = (e :: h).take 10 := by
  unfold saveToHistory
  by_cases hc : (e :: h).length > 10
  · simp only [hc, if_true]
    rw [List.dropLast_eq_take]
    congr 1
    simp only [List.length_cons] at hc ⊢
    omega
  · simp only [hc, if_false]
    exact (List.take_of_length_le (Nat.not_lt.mp hc)).symm

lemma take_append_take {α : Type} (a : List α) : ∀ (n m : Nat), n ≤ m →
    ∀ (b : List α), (a ++ b.take m).take n = (a ++ b).take n := by
  induction a with
  | nil =>
    intro n m h b
    simp only [List.nil_append, List.take_take]
    congr 1
    omega
  | cons x a ih =>
    intro n m h b
    cases n with
    | zero => simp
    | succ k =>
      simp only [List.cons_append, List.take_succ_cons]
      rw [ih k m (by omega) b]

lemma foldl_saveToHistory : ∀ (es : List HistoryEntry) (h : List HistoryEntry),
    h.length ≤ 10 →
    es.foldl (fun acc e => (saveToHistory acc e).1) h = (es.reverse ++ h).take 10 := by
  intro es
  induction es with
  | nil =>
    intro h hle
    simp [List.take_of_length_le hle]
  | cons e es ih =>
    intro h hle
    simp only [List.foldl_cons]
    rw [saveToHistory_fst h e hle]
    rw [ih ((e :: h).take 10) (by rw [List.length_take]; omega)]
    rw [take_append_take es.reverse 10 10 le_rfl (e :: h)]
    rw [List.reverse_cons, List.append_assoc]
    rfl

/-- C3: starting from an empty history, after any finite sequence of
`saveToHistory` appends the list has length at most 10 and equals the 10
most-recently appended entries, most recent first (each append prepends
and, past 10 entries, drops the oldest tail entry). -/
theorem C3_history_invariant (es : List HistoryEntry) :
    (es.foldl (fun acc e => (saveToHistory acc e).1) []).length ≤ 10 ∧
    es.foldl (fun acc e => (saveToHistory acc e).1) [] = es.reverse.take 10 := by
  have h := foldl_saveToHistory es [] (by simp)
  rw [List.append_nil] at h
  refine ⟨?_, h⟩
  rw [h, List.length_take]
  omega

end TaxCalc
